import Mathlib

/-!
Verification of the pooshit sync/deploy tool (src/main.go).

The development shallowly embeds the synchronization engine and the Docker
deployment sequencer of main.go:

* `shouldIgnore` / `matchPattern`  — main.go lines 244-297 (ignore patterns);
  the glob matcher `goMatch` embeds the semantics of Go's
  path/filepath.Match with Separator set to the slash, where every outcome
  that Match reports as ErrBadPattern is rendered as a non-match, exactly as
  the call site `matched, _ := filepath.Match(pattern, str)` consumes it.
* `pushScan` / `pullScan`          — phase 1 of SyncFiles (filepath.Walk,
  lines 342-398) and of PullFiles (sftp Walk loop, lines 494-540).
* `needsTransfer` / `transferLoop` — phase 2 of SyncFiles (lines 417-440)
  and of PullFiles (lines 559-582), which are line-for-line the same check:
  stat the destination, compare size and modification time, transfer
  otherwise.  A successful transfer stores the source size at the
  destination and stamps it with the destination clock (`now`), matching
  sftp Create / os.Create + io.Copy.
* `ExecuteDockerCommands`          — lines 689-749.

Modelling conventions:

* Relative paths are represented by their list of slash-separated
  components, i.e. the value of strings.Split(filepath.ToSlash(relPath),
  "/") that the Go code computes; filepath.Base is then the last component
  (`baseOf`).  The walk root itself (relPath ".") is skipped by the code
  and so never appears.
* File sizes and modification times are integers (nanoseconds since epoch
  for times); time.Time.After is `<` and Add(-time.Second) subtracts
  10^9 nanoseconds.
* A directory tree is an `FSTree`; an `unreadable` node is a node whose
  stat/read fails during the walk.  Children are listed in the order the
  walker visits them.
* Endpoint file state (the sftp server for push, the local disk for pull)
  is a map from relative path to `some (size, modTime)`.
* Remote command outcomes for the Docker pipeline are supplied by a
  `RemoteOutcomes` record; the pipeline records the trace of issued steps.
-/

namespace Pooshit

/-- strings.TrimPrefix: drop `pre` when it is a prefix of `s` (main.go 251-252). -/
def trimPrefixStr (s pre : String) : String :=
  if pre.data.isPrefixOf s.data then ⟨s.data.drop pre.data.length⟩ else s

/-- strings.Contains(pattern, "*") as used on lines 261, 277, 290. -/
def containsStar (s : String) : Bool := s.data.any (fun c => c == '*')

/-- strings.HasSuffix(pattern, "/") (main.go line 255). -/
def hasTrailingSlash (s : String) : Bool := s.data.getLast? == some '/'

/-- strings.TrimSuffix(pattern, "/") for a pattern known to end in "/" (line 257). -/
def dropTrailingSlash (s : String) : String := ⟨s.data.dropLast⟩

/-- The pattern after the two TrimPrefix cleanups of main.go lines 251-252. -/
def trimmedPattern (raw : String) : String :=
  trimPrefixStr (trimPrefixStr raw "/") "./"

/-- Whether a raw pattern is a directory pattern (trailing "/", line 255). -/
def isDirRule (raw : String) : Bool := hasTrailingSlash (trimmedPattern raw)

/-- The directory pattern with its trailing "/" removed (line 257). -/
def dirRuleCore (raw : String) : String := dropTrailingSlash (trimmedPattern raw)

/-- filepath.Base on a component list: the last component ("." if empty). -/
def baseOf (relParts : List String) : String := relParts.getLastD "."

/-- One escaped character of a character class, Go's getEsc: rejects an
empty chunk, a leading '-' or ']', a trailing backslash, and a class that
ends right after the character (Go additionally rejects when nothing
follows, since at least the closing ']' must remain). -/
def getEsc : List Char → Option (Char × List Char)
  | [] => none
  | c :: rest =>
    if c == '-' || c == ']' then none
    else if c == '\\' then
      match rest with
      | [] => none
      | d :: rest2 => if rest2.isEmpty then none else some (d, rest2)
    else if rest.isEmpty then none else some (c, rest)

/-- The range loop of Go's matchChunk for a '[' class: scans ranges
`lo-hi` (or single characters) until the closing ']' (which only closes
after at least one range), accumulating whether `r` fell in some range.
Returns the accumulated match and the rest of the pattern, or `none` where
Go reports ErrBadPattern.  The fuel is called with more than the chunk
length, and every recursion consumes at least one pattern character, so
the fuel never runs out on the calls made below. -/
def matchRangesAux (r : Char) : Nat → List Char → Bool → Nat → Option (Bool × List Char)
  | 0, _, _, _ => none
  | _ + 1, ']' :: rest, acc, _ + 1 => some (acc, rest)
  | fuel + 1, chunk, acc, nrange =>
    match getEsc chunk with
    | none => none
    | some (lo, rest1) =>
      match rest1 with
      | '-' :: rest2 =>
        match getEsc rest2 with
        | none => none
        | some (hi, rest3) =>
          matchRangesAux r fuel rest3 (acc || (decide (lo ≤ r) && decide (r ≤ hi))) (nrange + 1)
      | _ =>
        matchRangesAux r fuel rest1 (acc || (decide (lo ≤ r) && decide (r ≤ lo))) (nrange + 1)

/-- The glob matcher of Go's path/filepath.Match with Separator '/':
'*' matches any run of non-separator characters, '?' one non-separator
character, '[...]' a character class with '^' negation and '-' ranges,
backslash escapes the next character; every ErrBadPattern outcome is
rendered as false, matching `matched, _ := filepath.Match(pattern, str)`
on line 292.  Running out of fuel returns false; the wrapper `goMatch`
supplies fuel exceeding the recursion depth (every call strictly shrinks
the combined length of pattern and string). -/
def goMatchAux : Nat → List Char → List Char → Bool
  | 0, _, _ => false
  | _ + 1, [], s => s.isEmpty
  | fuel + 1, '*' :: p, s =>
    if p.isEmpty then !(s.any (fun c => c == '/'))
    else
      goMatchAux fuel p s ||
        (match s with
         | [] => false
         | c :: s2 => !(c == '/') && goMatchAux fuel ('*' :: p) s2)
  | fuel + 1, '?' :: p, s =>
    match s with
    | [] => false
    | c :: s2 => !(c == '/') && goMatchAux fuel p s2
  | fuel + 1, '[' :: p, s =>
    match s with
    | [] => false
    | c :: s2 =>
      let negp : Bool × List Char :=
        match p with
        | '^' :: p2 => (true, p2)
        | _ => (false, p)
      match matchRangesAux c (negp.2.length + 1) negp.2 false 0 with
      | none => false
      | some (m, rest) => (m != negp.1) && goMatchAux fuel rest s2
  | fuel + 1, '\\' :: p, s =>
    match p, s with
    | [], _ => false
    | _ :: _, [] => false
    | c :: p2, d :: s2 => (c == d) && goMatchAux fuel p2 s2
  | fuel + 1, c :: p, s =>
    match s with
    | [] => false
    | d :: s2 => (c == d) && goMatchAux fuel p s2

/-- filepath.Match pattern name (with the error dropped), on character lists. -/
def goMatch (p s : List Char) : Bool := goMatchAux (p.length + s.length + 1) p s

/-- matchPattern of main.go lines 288-297: glob when the pattern contains
'*', plain string equality otherwise. -/
def matchPattern (str pattern : String) : Bool :=
  if containsStar pattern then goMatch pattern.data str.data else str == pattern

/-- The per-pattern body of shouldIgnore's loop, main.go lines 249-281:
clean the pattern, detect a directory pattern, then (branch 1, lines
261-274, for directory patterns or patterns without '*') test the base
name of a directory and every path component, and (branch 2, lines
277-281, for patterns containing '*') glob against the base name. -/
def patternMatches (raw : String) (relParts : List String) (isDir : Bool) : Bool :=
  let isDirectoryPattern := isDirRule raw
  let pat := if isDirectoryPattern then dirRuleCore raw else trimmedPattern raw
  let baseName := baseOf relParts
  ((isDirectoryPattern || !containsStar pat) &&
      ((isDir && (baseName == pat || matchPattern baseName pat)) ||
        relParts.any (fun part => part == pat || matchPattern part pat))) ||
    (containsStar pat && matchPattern baseName pat)

/-- shouldIgnore of main.go lines 245-285: the pattern loop returns true
as soon as one pattern matches, i.e. the disjunction over the pattern list. -/
def shouldIgnore (patterns : List String) (relParts : List String) (isDir : Bool) : Bool :=
  patterns.any (fun pattern => patternMatches pattern relParts isDir)

mutual
/-- A node of the source tree: a file with size and modification time, a
directory with its children (in walker visit order), or a node whose
stat/read fails when the walker reaches it. -/
inductive FSTree where
  | file (size : Int) (modTime : Int) : FSTree
  | dir (children : Forest) : FSTree
  | unreadable : FSTree

/-- The named children of a directory, in walker visit order. -/
inductive Forest where
  | nil : Forest
  | cons (name : String) (tree : FSTree) (rest : Forest) : Forest
end

/-- One element of filesToSync / filesToPull (main.go lines 334-339 and
485-490): the relative path of a file together with its stat data. -/
structure SyncItem where
  relParts : List String
  size : Int
  modTime : Int
deriving DecidableEq, Repr

/-- The counts reported at the end of a run (main.go lines 443-444 and
585-586): files checked, uploaded/downloaded, already up-to-date, ignored. -/
structure SyncReport where
  checked : Nat
  transferred : Nat
  skipped : Nat
  ignored : Nat
deriving DecidableEq, Repr

/-- Destination-side file metadata: relative path ↦ (size, modTime), the
view that sftpClient.Stat (push) or os.Stat (pull) provides. -/
abbrev DestStat := List String → Option (Int × Int)

mutual
/-- Phase 1 of SyncFiles at one visited node (the filepath.Walk callback,
main.go lines 342-394): a stat failure aborts the whole walk with the
error (line 343-345); an ignored node counts once and, for a directory,
prunes the subtree via filepath.SkipDir (lines 358-369); a kept file
becomes a SyncItem (lines 371-385); a kept directory recurses (its
MkdirAll side effect is not needed by any claim). -/
def pushWalk (rules : List String) (relParts : List String) :
    FSTree → Except (List String) (List SyncItem × Nat)
  | .unreadable => .error relParts
  | .file sz mt =>
    if shouldIgnore rules relParts false then .ok ([], 1) else .ok ([⟨relParts, sz, mt⟩], 0)
  | .dir cs =>
    if shouldIgnore rules relParts true then .ok ([], 1)
    else pushWalkForest rules relParts cs

/-- The walk over a directory's children, aborting at the first error. -/
def pushWalkForest (rules : List String) (relParts : List String) :
    Forest → Except (List String) (List SyncItem × Nat)
  | .nil => .ok ([], 0)
  | .cons n t rest =>
    match pushWalk rules (relParts ++ [n]) t with
    | .error e => .error e
    | .ok (is1, g1) =>
      match pushWalkForest rules relParts rest with
      | .error e => .error e
      | .ok (is2, g2) => .ok (is1 ++ is2, g1 + g2)
end

/-- Phase 1 of SyncFiles from the root: the root must be a readable
directory (lines 308-314), is itself skipped (relPath ".", line 354), and
its children are walked. -/
def pushScan (rules : List String) : FSTree → Except (List String) (List SyncItem × Nat)
  | .dir cs => pushWalkForest rules [] cs
  | .file _ _ => .error []
  | .unreadable => .error []

mutual
/-- Phase 1 of PullFiles at one visited node (the sftp walker loop,
main.go lines 494-540).  Unlike the push walk: a walker error is skipped
with `continue` (lines 496-498) and never aborts, and an ignored node is
only counted and skipped with `continue` (lines 515-519) — the walker
still descends into an ignored directory, so its children are visited
(and tested against the rules) individually. -/
def pullWalk (rules : List String) (relParts : List String) : FSTree → List SyncItem × Nat
  | .unreadable => ([], 0)
  | .file sz mt =>
    if shouldIgnore rules relParts false then ([], 1) else ([⟨relParts, sz, mt⟩], 0)
  | .dir cs =>
    let r := pullWalkForest rules relParts cs
    if shouldIgnore rules relParts true then (r.1, r.2 + 1) else r

/-- The pull walk over a directory's children. -/
def pullWalkForest (rules : List String) (relParts : List String) : Forest → List SyncItem × Nat
  | .nil => ([], 0)
  | .cons n t rest =>
    let a := pullWalk rules (relParts ++ [n]) t
    let b := pullWalkForest rules relParts rest
    (a.1 ++ b.1, a.2 + b.2)
end

/-- Phase 1 of PullFiles from the root: the walker's first step is the
root itself (relPath ".", skipped, line 511); an unreadable root is a
walker error, skipped like any other, leaving an empty plan. -/
def pullScan (rules : List String) : FSTree → List SyncItem × Nat
  | .dir cs => pullWalkForest rules [] cs
  | _ => ([], 0)

/-- The per-item change check of phase 2 (main.go lines 419-428 for push,
561-569 for pull): needsUpdate starts true and becomes false exactly when
the destination stat succeeds, the sizes are equal, and the destination
modification time is strictly after source modTime − 1s
(ModTime().After(... .Add(-time.Second))). -/
def needsTransfer (srcSize srcMod : Int) (dest : Option (Int × Int)) : Bool :=
  match dest with
  | none => true
  | some (dsz, dmod) => !(dsz == srcSize && decide (srcMod - 1000000000 < dmod))

/-- Phase 2 (the loop of main.go lines 417-440 for push and 559-582 for
pull, which are the same code shape): for each planned item, stat the
destination, skip when up to date, otherwise transfer — a transfer stores
the source size at the destination stamped with the destination clock
`now` (sftp Create / os.Create + io.Copy set the destination mtime to the
write time; the best-effort Chmod is swallowed).  The first failed
transfer aborts the run (lines 432-435 / 574-577).  `transferOk` says
which transfers the endpoint accepts.  Returns (transferred, skipped,
final destination state). -/
def transferLoop (transferOk : List String → Bool) (now : Int) :
    DestStat → List SyncItem → Except (List String) (Nat × Nat × DestStat)
  | st, [] => .ok (0, 0, st)
  | st, it :: rest =>
    if needsTransfer it.size it.modTime (st it.relParts) then
      if transferOk it.relParts then
        match transferLoop transferOk now
            (fun p => if p = it.relParts then some (it.size, now) else st p) rest with
        | .error e => .error e
        | .ok (tr, sk, st2) => .ok (tr + 1, sk, st2)
      else .error it.relParts
    else
      match transferLoop transferOk now st rest with
      | .error e => .error e
      | .ok (tr, sk, st2) => .ok (tr, sk + 1, st2)

/-- SyncFiles (main.go lines 300-456): phase 1 scan (a scan failure aborts
the call, lines 396-398), then phase 2 over the plan; on completion the
reported counts are (files checked, uploaded, up-to-date, ignored)
(lines 443-446). -/
def SyncFiles (rules : List String) (uploadOk : List String → Bool) (now : Int)
    (root : FSTree) (remote : DestStat) : Except (List String) (SyncReport × DestStat) :=
  match pushScan rules root with
  | .error e => .error e
  | .ok (items, ign) =>
    match transferLoop uploadOk now remote items with
    | .error e => .error e
    | .ok (tr, sk, remote2) => .ok (⟨items.length, tr, sk, ign⟩, remote2)

/-- PullFiles (main.go lines 459-592): phase 1 scan (never aborts), then
phase 2 over the plan. -/
def PullFiles (rules : List String) (downloadOk : List String → Bool) (now : Int)
    (root : FSTree) (localSt : DestStat) : Except (List String) (SyncReport × DestStat) :=
  let s := pullScan rules root
  match transferLoop downloadOk now localSt s.1 with
  | .error e => .error e
  | .ok (tr, sk, localSt2) => .ok (⟨s.1.length, tr, sk, s.2⟩, localSt2)

/-- The report of a push run (the state projected away). -/
def SyncFilesReport (rules : List String) (uploadOk : List String → Bool) (now : Int)
    (root : FSTree) (remote : DestStat) : Except (List String) SyncReport :=
  (SyncFiles rules uploadOk now root remote).map Prod.fst

/-- The report of a pull run (the state projected away). -/
def PullFilesReport (rules : List String) (downloadOk : List String → Bool) (now : Int)
    (root : FSTree) (localSt : DestStat) : Except (List String) SyncReport :=
  (PullFiles rules downloadOk now root localSt).map Prod.fst

/-- Two push runs in succession against the same unchanged local tree: the
second run starts from the remote state the first run left behind. -/
def SyncFilesTwice (rules : List String) (u1 u2 : List String → Bool) (t1 t2 : Int)
    (root : FSTree) (remote : DestStat) : Except (List String) (SyncReport × DestStat) :=
  match SyncFiles rules u1 t1 root remote with
  | .error e => .error e
  | .ok (_, remote1) => SyncFiles rules u2 t2 root remote1

mutual
/-- Whether any node of the tree is unreadable (plain containment). -/
def hasUnreadable : FSTree → Bool
  | .file _ _ => false
  | .unreadable => true
  | .dir cs => hasUnreadableF cs

/-- Forest version of `hasUnreadable`. -/
def hasUnreadableF : Forest → Bool
  | .nil => false
  | .cons _ t rest => hasUnreadable t || hasUnreadableF rest
end

mutual
/-- Whether the push walk started at this node reaches an unreadable node:
the node itself is unreadable, or it is a directory that is not pruned by
the ignore rules and some child's walk reaches one.  This mirrors exactly
which nodes filepath.Walk hands to the callback. -/
def hitsUnreadable (rules : List String) (relParts : List String) : FSTree → Bool
  | .unreadable => true
  | .file _ _ => false
  | .dir cs =>
    !shouldIgnore rules relParts true && hitsUnreadableForest rules relParts cs

/-- Forest version of `hitsUnreadable`. -/
def hitsUnreadableForest (rules : List String) (relParts : List String) : Forest → Bool
  | .nil => false
  | .cons n t rest =>
    hitsUnreadable rules (relParts ++ [n]) t || hitsUnreadableForest rules relParts rest
end

/-- Whether the push scan from the root visits an unreadable node. -/
def scanHitsUnreadable (rules : List String) : FSTree → Bool
  | .dir cs => hitsUnreadableForest rules [] cs
  | .file _ _ => false
  | .unreadable => true

mutual
/-- The number of nodes the pull walker visits in this subtree (unreadable
nodes are skipped via walker.Err and their children never enumerated). -/
def visitedCount : FSTree → Nat
  | .file _ _ => 1
  | .unreadable => 0
  | .dir cs => visitedCountF cs + 1

/-- Forest version of `visitedCount`. -/
def visitedCountF : Forest → Nat
  | .nil => 0
  | .cons _ t rest => visitedCount t + visitedCountF rest
end

/-- Whether an Except value is a success. -/
def exOk {ε α : Type} : Except ε α → Bool
  | .ok _ => true
  | .error _ => false

/-- Whether an Except value is an error. -/
def exErr {ε α : Type} : Except ε α → Bool
  | .ok _ => false
  | .error _ => true

/-- The four remote Docker operations of ExecuteDockerCommands plus the
pre-flight Dockerfile check, in source order (main.go lines 704-745). -/
inductive DockerStep where
  | checkDockerfile
  | stopRemoveContainers
  | removeImage
  | buildImage
  | runContainer
deriving DecidableEq, Repr

/-- The outcomes the remote host gives to each issued command: whether the
command exits successfully, and the captured output of the run command. -/
structure RemoteOutcomes where
  checkOk : Bool
  stopOk : Bool
  rmiOk : Bool
  buildOk : Bool
  runOk : Bool
  runOutput : String

/-- ExecuteDockerCommands (main.go lines 689-749), as the ordered trace of
issued remote commands together with the call's result.  The Dockerfile
check result is only logged (lines 705-709); the stop+remove and rmi
steps call executeRemoteCommandQuiet and their returned errors are
discarded at the call sites (lines 715 and 720); a build failure returns
the error before the run command is issued (lines 730-732); a run failure
returns the error (lines 741-742), otherwise the captured container id is
the result. -/
def ExecuteDockerCommands (env : RemoteOutcomes) : List DockerStep × Except String String :=
  let trace0 := [DockerStep.checkDockerfile, DockerStep.stopRemoveContainers,
                 DockerStep.removeImage, DockerStep.buildImage]
  if env.buildOk then
    if env.runOk then (trace0 ++ [DockerStep.runContainer], .ok env.runOutput)
    else (trace0 ++ [DockerStep.runContainer], .error "failed to run Docker container")
  else (trace0, .error "failed to build Docker image")

/-- A tree D = node_modules/{x.js} used to exhibit pull's non-pruning. -/
def exNodeModulesTree : FSTree :=
  .dir (.cons "node_modules" (.dir (.cons "x.js" (.file 1 0) .nil)) .nil)

/-- A tree with a readable file next to an unreadable node. -/
def exUnreadableTree : FSTree :=
  .dir (.cons "a.txt" (.file 2 5) (.cons "bad" .unreadable .nil))

/-- A one-file tree used by several witnesses. -/
def exSmallTree : FSTree := .dir (.cons "a.txt" (.file 3 100) .nil)

/-- The empty destination state. -/
def emptyStat : DestStat := fun _ => none

/-! ## Helper lemmas -/

/-- matchPattern is plain equality when the pattern has no '*'. -/
theorem matchPattern_of_no_star (s pat : String) (h : containsStar pat = false) :
    matchPattern s pat = (s == pat) := by
  simp [matchPattern, h]

/-- matchPattern is the glob matcher when the pattern contains '*'. -/
theorem matchPattern_of_star (s pat : String) (h : containsStar pat = true) :
    matchPattern s pat = goMatch pat.data s.data := by
  simp [matchPattern, h]

/-! ## C3 -/

/-- C3 counterexample: with the destination modification time exactly equal
to source modTime − 1s (which is "no earlier than source − 1s") and equal
sizes, the code still forces a transfer, because line 423 uses the strict
ModTime().After(... .Add(-time.Second)). -/
theorem needsTransfer_boundary_cex :
    needsTransfer 1 1000000000 (some (1, 0)) = true ∧
    ((1000000000 : Int) - 1000000000 ≤ 0) := by
  constructor
  · rfl
  · decide

/-- C3 (amended): needsTransfer returns false iff the destination exists,
its size equals the source size exactly, and the destination modification
time is strictly later than source modTime − 1s; and any size mismatch
forces true regardless of timestamps. -/
theorem needsTransfer_characterization (srcSize srcMod : Int) (dest : Option (Int × Int)) :
    (needsTransfer srcSize srcMod dest = false ↔
      ∃ dsz dmod, dest = some (dsz, dmod) ∧ dsz = srcSize ∧ srcMod - 1000000000 < dmod) ∧
    (∀ dsz dmod, dest = some (dsz, dmod) → dsz ≠ srcSize →
      needsTransfer srcSize srcMod dest = true) := by
  constructor
  · cases dest with
    | none => simp [needsTransfer]
    | some p =>
      obtain ⟨dsz, dmod⟩ := p
      simp [needsTransfer]
      constructor
      · rintro ⟨h1, h2⟩
        exact ⟨dsz, dmod, ⟨rfl, rfl⟩, h1, h2⟩
      · rintro ⟨a, b, ⟨ha, hb⟩, h1, h2⟩
        subst ha; subst hb
        exact ⟨h1, h2⟩
  · intro dsz dmod hd hne
    subst hd
    simp [needsTransfer, hne]

/-- Witness for C3's amended theorem at a concrete input: size mismatch
forces a transfer. -/
theorem needsTransfer_characterization_witness :
    needsTransfer 5 0 (some (6, 100)) = true :=
  (needsTransfer_characterization 5 0 (some (6, 100))).2 6 100 rfl (by decide)

/-! ## C5 -/

/-- C5: shouldIgnore is a pure function of (path, isDirectory, rules) — it
is the disjunction of the per-rule match results, hence deterministic and
invariant under any permutation of the rule list. -/
theorem shouldIgnore_pure (rules : List String) (parts : List String) (d : Bool) :
    (shouldIgnore rules parts d = true ↔
      ∃ pat ∈ rules, patternMatches pat parts d = true) ∧
    (∀ rules', rules.Perm rules' → shouldIgnore rules parts d = shouldIgnore rules' parts d) := by
  constructor
  · simp [shouldIgnore, List.any_eq_true]
  · intro rules' h
    unfold shouldIgnore
    rcases ha : rules.any (fun pattern => patternMatches pattern parts d) with _ | _ <;>
      rcases hb : rules'.any (fun pattern => patternMatches pattern parts d) with _ | _ <;>
        try rfl
    · rw [List.any_eq_true] at hb
      obtain ⟨p, hp, hm⟩ := hb
      have : rules.any (fun pattern => patternMatches pattern parts d) = true :=
        List.any_eq_true.mpr ⟨p, h.mem_iff.mpr hp, hm⟩
      rw [ha] at this
      exact absurd this (by simp)
    · rw [List.any_eq_true] at ha
      obtain ⟨p, hp, hm⟩ := ha
      have : rules'.any (fun pattern => patternMatches pattern parts d) = true :=
        List.any_eq_true.mpr ⟨p, h.mem_iff.mp hp, hm⟩
      rw [hb] at this
      exact absurd this (by simp)

/-- Witness for C5 at a concrete rule list and its permutation. -/
theorem shouldIgnore_pure_witness :
    shouldIgnore ["a", "*.env"] ["x.env"] false = shouldIgnore ["*.env", "a"] ["x.env"] false :=
  (shouldIgnore_pure ["a", "*.env"] ["x.env"] false).2 ["*.env", "a"] (by decide)

/-! ## C9 -/

/-- C9: a Wildcard rule (the trimmed pattern contains '*' and has no
trailing slash) matches exactly the glob match against the path's base
name, and therefore never matches by virtue of a glob match on a higher
directory component: the result depends on the path only through its base
name. -/
theorem wildcard_base_only (raw : String) (hdir : isDirRule raw = false)
    (hstar : containsStar (trimmedPattern raw) = true) :
    (∀ parts d, patternMatches raw parts d =
      goMatch (trimmedPattern raw).data (baseOf parts).data) ∧
    (∀ parts parts' d d', baseOf parts = baseOf parts' →
      patternMatches raw parts d = patternMatches raw parts' d') := by
  have key : ∀ parts d, patternMatches raw parts d =
      goMatch (trimmedPattern raw).data (baseOf parts).data := by
    intro parts d
    simp [patternMatches, matchPattern, hdir, hstar]
  refine ⟨key, fun parts parts' d d' h => ?_⟩
  rw [key, key, h]

/-- Witness for C9: a wildcard rule applied to a path with a directory
component equals the glob on the base name. -/
theorem wildcard_base_only_witness :
    patternMatches "*.env" ["sub", "a.env"] false =
      goMatch (trimmedPattern "*.env").data (baseOf ["sub", "a.env"]).data :=
  (wildcard_base_only "*.env" (by decide) (by decide)).1 ["sub", "a.env"] false

/-! ## C4 -/

/-- C4 counterexample: the DirectoryName rule "foo*/" (trailing slash, so
classified as a directory rule) matches the directory "foobar" by glob,
although the base name does not EQUAL the rule string "foo*" and no path
segment equals it — matchPattern on lines 263 and 270 globs whenever the
cleaned pattern contains '*'. -/
theorem dirRule_glob_cex :
    shouldIgnore ["foo*/"] ["foobar"] true = true ∧
    dirRuleCore "foo*/" = "foo*" ∧ ("foobar" : String) ≠ "foo*" := by
  refine ⟨rfl, rfl, ?_⟩
  decide

/-- C4 (amended): a DirectoryName rule whose cleaned core contains no '*'
matches exactly when (a) the entry is a directory whose base name equals
the core, or (b) some path segment equals the core; when the core contains
'*' the rule instead matches by literal equality or glob on the base name
of a directory, on any path segment, or by glob on the base name of any
entry (directory or not). -/
theorem dirRule_matching (raw : String) (parts : List String) (d : Bool)
    (hdir : isDirRule raw = true) :
    (containsStar (dirRuleCore raw) = false →
      (patternMatches raw parts d = true ↔
        (d = true ∧ baseOf parts = dirRuleCore raw) ∨ dirRuleCore raw ∈ parts)) ∧
    (containsStar (dirRuleCore raw) = true →
      (patternMatches raw parts d = true ↔
        (d = true ∧ baseOf parts = dirRuleCore raw) ∨
        (∃ part ∈ parts, part = dirRuleCore raw ∨
          goMatch (dirRuleCore raw).data part.data = true) ∨
        goMatch (dirRuleCore raw).data (baseOf parts).data = true)) := by
  constructor
  · intro hstar
    have hpm : ∀ s, matchPattern s (dirRuleCore raw) = (s == dirRuleCore raw) :=
      fun s => matchPattern_of_no_star s _ hstar
    simp [patternMatches, hdir, hpm, hstar, List.any_eq_true]
  · intro hstar
    have hpm : ∀ s, matchPattern s (dirRuleCore raw) = goMatch (dirRuleCore raw).data s.data :=
      fun s => matchPattern_of_star s _ hstar
    simp only [patternMatches, hdir, if_true, hpm, hstar, Bool.true_or, Bool.true_and,
      Bool.or_eq_true, Bool.and_eq_true, beq_iff_eq, List.any_eq_true]
    constructor
    · rintro ((⟨hd, hbase | hg⟩ | hex) | hg)
      · exact Or.inl ⟨hd, hbase⟩
      · exact Or.inr (Or.inr hg)
      · exact Or.inr (Or.inl hex)
      · exact Or.inr (Or.inr hg)
    · rintro (⟨hd, hbase⟩ | hex | hg)
      · exact Or.inl (Or.inl ⟨hd, Or.inl hbase⟩)
      · exact Or.inl (Or.inr hex)
      · exact Or.inr hg

/-- Witness for C4's amended theorem: "node_modules/" matches a file whose
path contains the segment node_modules. -/
theorem dirRule_matching_witness :
    patternMatches "node_modules/" ["src", "node_modules", "x.js"] false = true :=
  ((dirRule_matching "node_modules/" ["src", "node_modules", "x.js"] false (by decide)).1
    (by decide)).mpr (Or.inr (by decide))

/-! ## C7 and C8 -/

/-- C7: in the trace of issued remote commands, the image removal (step 2)
occurs strictly before the build (step 3) — the code issues them
sequentially and each remote command completes before the next is started
— and the run command (step 4) is only ever issued when the build command
succeeded. -/
theorem docker_pipeline_order (env : RemoteOutcomes) :
    (ExecuteDockerCommands env).1.indexOf DockerStep.removeImage <
      (ExecuteDockerCommands env).1.indexOf DockerStep.buildImage ∧
    (DockerStep.runContainer ∈ (ExecuteDockerCommands env).1 → env.buildOk = true) := by
  obtain ⟨c, s, r, b, ru, out⟩ := env
  cases b <;> cases ru <;> simp [ExecuteDockerCommands]

/-- Witness for C7: extracting build success from the run step's presence
in a concrete successful pipeline. -/
theorem docker_pipeline_order_witness :
    (RemoteOutcomes.mk true true true true true "cid").buildOk = true :=
  (docker_pipeline_order (RemoteOutcomes.mk true true true true true "cid")).2 (by decide)

/-- C8: the stop+remove-containers and remove-image steps carry the Ignore
policy — their outcomes are discarded at the call sites (lines 715 and
720) — so the whole pipeline result is unchanged under any outcome of
those two steps, and the build step is always issued. -/
theorem docker_ignore_steps (env : RemoteOutcomes) :
    DockerStep.buildImage ∈ (ExecuteDockerCommands env).1 ∧
    ∀ b1 b2 : Bool,
      ExecuteDockerCommands { env with stopOk := b1, rmiOk := b2 } =
        ExecuteDockerCommands env := by
  obtain ⟨c, s, r, b, ru, out⟩ := env
  refine ⟨?_, fun b1 b2 => rfl⟩
  cases b <;> cases ru <;> simp [ExecuteDockerCommands]

/-! ## C1 -/

/-- The base name of a path is its final component. -/
theorem baseOf_append (p0 : List String) (name : String) : baseOf (p0 ++ [name]) = name := by
  induction p0 with
  | nil => rfl
  | cons hd tl ih =>
    cases tl with
    | nil => rfl
    | cons hd2 tl2 => simpa [baseOf] using ih

/-- A directory pattern matches any path that contains a segment matching
its core (the segment loop of main.go lines 267-273). -/
theorem patternMatches_of_seg (pat name : String) (parts : List String) (d : Bool)
    (hdir : isDirRule pat = true)
    (hbase : (name == dirRuleCore pat || matchPattern name (dirRuleCore pat)) = true)
    (hp : name ∈ parts) : patternMatches pat parts d = true := by
  have hany : parts.any
      (fun part => part == dirRuleCore pat || matchPattern part (dirRuleCore pat)) = true :=
    List.any_eq_true.mpr ⟨name, hp, hbase⟩
  simp [patternMatches, hdir, hany]

/-- A directory pattern matches the directory whose base name matches its
core (main.go line 263). -/
theorem patternMatches_dirSelf (pat name : String) (p0 : List String)
    (hdir : isDirRule pat = true)
    (hbase : (name == dirRuleCore pat || matchPattern name (dirRuleCore pat)) = true) :
    patternMatches pat (p0 ++ [name]) true = true := by
  simp [patternMatches, hdir, baseOf_append, hbase]

/-- shouldIgnore holds for any path containing a matching segment, for any
ruleset containing the directory pattern. -/
theorem shouldIgnore_of_seg (rules : List String) (pat name : String) (parts : List String)
    (d : Bool) (hmem : pat ∈ rules) (hdir : isDirRule pat = true)
    (hbase : (name == dirRuleCore pat || matchPattern name (dirRuleCore pat)) = true)
    (hp : name ∈ parts) : shouldIgnore rules parts d = true := by
  simp only [shouldIgnore, List.any_eq_true]
  exact ⟨pat, hmem, patternMatches_of_seg pat name parts d hdir hbase hp⟩

mutual
/-- Every node of a subtree below a segment matching a directory pattern
is itself ignored by the pull walk, so the subtree contributes no plan
entries and one ignored-count increment per visited node. -/
theorem pullWalk_ignored_subtree (rules : List String) (pat name : String)
    (hmem : pat ∈ rules) (hdir : isDirRule pat = true)
    (hbase : (name == dirRuleCore pat || matchPattern name (dirRuleCore pat)) = true) :
    ∀ (t : FSTree) (p : List String), name ∈ p → pullWalk rules p t = ([], visitedCount t)
  | .file sz mt, p, hp => by
    have hsi := shouldIgnore_of_seg rules pat name p false hmem hdir hbase hp
    simp [pullWalk, hsi, visitedCount]
  | .unreadable, p, _ => by simp [pullWalk, visitedCount]
  | .dir cs, p, hp => by
    have hsi := shouldIgnore_of_seg rules pat name p true hmem hdir hbase hp
    have hf := pullWalkForest_ignored_subtree rules pat name hmem hdir hbase cs p hp
    simp [pullWalk, hsi, hf, visitedCount]

/-- Forest version of `pullWalk_ignored_subtree`. -/
theorem pullWalkForest_ignored_subtree (rules : List String) (pat name : String)
    (hmem : pat ∈ rules) (hdir : isDirRule pat = true)
    (hbase : (name == dirRuleCore pat || matchPattern name (dirRuleCore pat)) = true) :
    ∀ (cs : Forest) (p : List String), name ∈ p →
      pullWalkForest rules p cs = ([], visitedCountF cs)
  | .nil, p, _ => by simp [pullWalkForest, visitedCountF]
  | .cons n t rest, p, hp => by
    have ht := pullWalk_ignored_subtree rules pat name hmem hdir hbase t (p ++ [n])
      (List.mem_append.mpr (Or.inl hp))
    have hr := pullWalkForest_ignored_subtree rules pat name hmem hdir hbase rest p hp
    simp [pullWalkForest, ht, hr, visitedCountF]
end

/-- C1 counterexample: for the DirectoryName rule "node_modules/" matching
the directory node_modules, the pull enumeration yields zero entries but
counts TWO ignored nodes (node_modules itself and its descendant x.js):
the pull loop handles an ignored directory with `continue` (main.go lines
515-519), not with pruning, so the descendant is visited and counted
individually, contradicting "incremented exactly once for D itself". -/
theorem pull_counts_descendants_cex :
    pullScan ["node_modules/"] exNodeModulesTree = ([], 2) ∧ (2 : Nat) ≠ 1 :=
  ⟨rfl, by decide⟩

/-- C1 (amended): for a rule set containing a DirectoryName rule whose core
matches the name of a directory D, the push enumeration prunes: it yields
zero entries for D's whole subtree and increments the ignored count
exactly once, for D itself (filepath.SkipDir, main.go lines 358-369).  The
pull enumeration also yields zero entries for D's subtree (every visited
descendant matches the rule through the segment check), but it does not
prune: every readable node of the subtree is visited and counted
individually, so the ignored count rises by the number of visited nodes
of the subtree, not by one. -/
theorem dirRule_subtree (rules : List String) (pat name : String) (p0 : List String)
    (cs : Forest) (hmem : pat ∈ rules) (hdir : isDirRule pat = true)
    (hbase : (name == dirRuleCore pat || matchPattern name (dirRuleCore pat)) = true) :
    pushWalk rules (p0 ++ [name]) (.dir cs) = .ok ([], 1) ∧
    pullWalk rules (p0 ++ [name]) (.dir cs) = ([], visitedCount (.dir cs)) := by
  have hsiD : shouldIgnore rules (p0 ++ [name]) true = true := by
    simp only [shouldIgnore, List.any_eq_true]
    exact ⟨pat, hmem, patternMatches_dirSelf pat name p0 hdir hbase⟩
  constructor
  · simp [pushWalk, hsiD]
  · exact pullWalk_ignored_subtree rules pat name hmem hdir hbase (.dir cs) (p0 ++ [name])
      (List.mem_append.mpr (Or.inr (List.mem_singleton.mpr rfl)))

/-- Witness for C1's amended theorem on a concrete node_modules subtree. -/
theorem dirRule_subtree_witness :
    pushWalk ["node_modules/"] ["node_modules"] (.dir (.cons "x.js" (.file 1 0) .nil)) =
      .ok ([], 1) ∧
    pullWalk ["node_modules/"] ["node_modules"] (.dir (.cons "x.js" (.file 1 0) .nil)) =
      ([], visitedCount (.dir (.cons "x.js" (.file 1 0) .nil))) :=
  dirRule_subtree ["node_modules/"] "node_modules/" "node_modules" []
    (.cons "x.js" (.file 1 0) .nil) (by decide) (by decide) (by decide)

/-! ## C2 -/

mutual
/-- The push walk fails exactly when it visits an unreadable node: the
callback receives the walk error first (main.go lines 343-345) and
returning it aborts filepath.Walk. -/
theorem pushWalk_isErr (rules : List String) :
    ∀ (t : FSTree) (p : List String), exErr (pushWalk rules p t) = hitsUnreadable rules p t
  | .unreadable, p => by simp [pushWalk, exErr, hitsUnreadable]
  | .file sz mt, p => by
    cases h : shouldIgnore rules p false <;> simp [pushWalk, exErr, hitsUnreadable, h]
  | .dir cs, p => by
    cases h : shouldIgnore rules p true with
    | true => simp [pushWalk, exErr, hitsUnreadable, h]
    | false =>
      have hf := pushWalkForest_isErr rules cs p
      simp only [pushWalk, hitsUnreadable, h, Bool.not_false, Bool.true_and, if_false]
      exact hf

/-- Forest version of `pushWalk_isErr`. -/
theorem pushWalkForest_isErr (rules : List String) :
    ∀ (cs : Forest) (p : List String),
      exErr (pushWalkForest rules p cs) = hitsUnreadableForest rules p cs
  | .nil, p => by simp [pushWalkForest, exErr, hitsUnreadableForest]
  | .cons n t rest, p => by
    have ht := pushWalk_isErr rules t (p ++ [n])
    have hr := pushWalkForest_isErr rules rest p
    simp only [pushWalkForest, hitsUnreadableForest, ← ht, ← hr]
    cases pushWalk rules (p ++ [n]) t with
    | error e => simp [exErr]
    | ok r =>
      obtain ⟨is1, g1⟩ := r
      cases pushWalkForest rules p rest with
      | error e => simp [exErr]
      | ok r2 => obtain ⟨is2, g2⟩ := r2; simp [exErr]
end

/-- The transfer loop never fails when the endpoint accepts every
transfer. -/
theorem transferLoop_total (now : Int) :
    ∀ (items : List SyncItem) (st : DestStat),
      exOk (transferLoop (fun _ => true) now st items) = true := by
  intro items
  induction items with
  | nil => intro st; rfl
  | cons it rest ih =>
    intro st
    cases h : needsTransfer it.size it.modTime (st it.relParts) with
    | true =>
      have hrec := ih (fun p => if p = it.relParts then some (it.size, now) else st p)
      cases h2 : transferLoop (fun _ => true) now
          (fun p => if p = it.relParts then some (it.size, now) else st p) rest with
      | error e => rw [h2] at hrec; exact absurd hrec (by simp [exOk])
      | ok r => obtain ⟨tr, sk, st2⟩ := r; simp [transferLoop, h, h2, exOk]
    | false =>
      have hrec := ih st
      cases h2 : transferLoop (fun _ => true) now st rest with
      | error e => rw [h2] at hrec; exact absurd hrec (by simp [exOk])
      | ok r => obtain ⟨tr, sk, st2⟩ := r; simp [transferLoop, h, h2, exOk]

/-- C2 (amended): a read failure on a node visited by the push enumeration
aborts the entire SyncFiles call with a scan error before any transfer is
attempted (main.go lines 343-345 and 396-398); the pull enumeration, by
contrast, skips read failures (`continue` on walker.Err, lines 496-498)
and the pull completes on the plan built from the remaining nodes — when
every download succeeds, PullFiles always returns successfully, whatever
unreadable nodes the tree contains. -/
theorem scan_error_aborts (rules : List String) (u : List String → Bool) (nowP nowL : Int)
    (remote localSt : DestStat) :
    (∀ root : FSTree, scanHitsUnreadable rules root = true →
      ∃ e, SyncFiles rules u nowP root remote = .error e) ∧
    (∀ root : FSTree, exOk (PullFiles rules (fun _ => true) nowL root localSt) = true) := by
  constructor
  · intro root h
    cases root with
    | file sz mt => exact ⟨[], rfl⟩
    | unreadable => exact ⟨[], rfl⟩
    | dir cs =>
      simp only [scanHitsUnreadable] at h
      have hf := pushWalkForest_isErr rules cs []
      rw [h] at hf
      cases he : pushWalkForest rules [] cs with
      | error e => exact ⟨e, by simp [SyncFiles, pushScan, he]⟩
      | ok r => rw [he] at hf; exact absurd hf (by simp [exErr])
  · intro root
    have ht := transferLoop_total nowL (pullScan rules root).1 localSt
    cases h2 : transferLoop (fun _ => true) nowL localSt (pullScan rules root).1 with
    | error e => rw [h2] at ht; exact absurd ht (by simp [exOk])
    | ok r =>
      obtain ⟨tr, sk, st2⟩ := r
      simp [PullFiles, h2, exOk]

/-- Witness for C2's amended theorem on a tree with an unreadable node:
push aborts, pull completes. -/
theorem scan_error_aborts_witness :
    (∃ e, SyncFiles [] (fun _ => true) 0 exUnreadableTree emptyStat = .error e) ∧
    exOk (PullFiles [] (fun _ => true) 0 exUnreadableTree emptyStat) = true :=
  ⟨(scan_error_aborts [] (fun _ => true) 0 0 emptyStat emptyStat).1 exUnreadableTree rfl,
   (scan_error_aborts [] (fun _ => true) 0 0 emptyStat emptyStat).2 exUnreadableTree⟩

/-- C2 counterexample: the claim says a read failure during pull
enumeration aborts the sync call with no partial plan used; in fact a pull
over a tree containing an unreadable node completes successfully and
transfers the sibling file from the partial plan. -/
theorem pull_ignores_read_errors_cex :
    hasUnreadable exUnreadableTree = true ∧
    PullFilesReport [] (fun _ => true) 10 exUnreadableTree emptyStat = .ok ⟨1, 1, 0, 0⟩ :=
  ⟨rfl, rfl⟩

/-! ## C6 and C10: transfer-loop lemmas -/

/-- The transfer loop changes the destination state only at the planned
items' paths. -/
theorem transferLoop_preserves (ok : List String → Bool) (now : Int) :
    ∀ (items : List SyncItem) (st : DestStat) (tr sk : Nat) (st2 : DestStat),
      transferLoop ok now st items = .ok (tr, sk, st2) →
      ∀ p, p ∉ items.map SyncItem.relParts → st2 p = st p := by
  intro items
  induction items with
  | nil =>
    intro st tr sk st2 h p _
    simp only [transferLoop, Except.ok.injEq, Prod.mk.injEq] at h
    rw [← h.2.2]
  | cons it rest ih =>
    intro st tr sk st2 h p hp
    have hp1 : p ≠ it.relParts := fun hc => hp (by simp [hc])
    have hp2 : p ∉ rest.map SyncItem.relParts := fun hc => hp (by simp [hc])
    simp only [transferLoop] at h
    by_cases hnt : needsTransfer it.size it.modTime (st it.relParts) = true
    · rw [if_pos hnt] at h
      by_cases hok : ok it.relParts = true
      · rw [if_pos hok] at h
        cases h2 : transferLoop ok now
            (fun q => if q = it.relParts then some (it.size, now) else st q) rest with
        | error e => rw [h2] at h; simp at h
        | ok r =>
          obtain ⟨tr2, sk2, stx⟩ := r
          rw [h2] at h
          simp only [Except.ok.injEq, Prod.mk.injEq] at h
          have hx := ih _ tr2 sk2 stx h2 p hp2
          rw [← h.2.2, hx]
          simp [hp1]
      · rw [if_neg hok] at h; simp at h
    · rw [if_neg hnt] at h
      cases h2 : transferLoop ok now st rest with
      | error e => rw [h2] at h; simp at h
      | ok r =>
        obtain ⟨tr2, sk2, stx⟩ := r
        rw [h2] at h
        simp only [Except.ok.injEq, Prod.mk.injEq] at h
        have hx := ih st tr2 sk2 stx h2 p hp2
        rw [← h.2.2, hx]

/-- After a successful transfer loop whose plan has pairwise-distinct
paths and whose items were all modified no later than the transfer clock,
every planned item is up to date against the final destination state. -/
theorem transferLoop_uptodate (ok : List String → Bool) (now : Int) :
    ∀ (items : List SyncItem) (st : DestStat) (tr sk : Nat) (st2 : DestStat),
      (items.map SyncItem.relParts).Nodup →
      (∀ it ∈ items, it.modTime ≤ now) →
      transferLoop ok now st items = .ok (tr, sk, st2) →
      ∀ it ∈ items, needsTransfer it.size it.modTime (st2 it.relParts) = false := by
  intro items
  induction items with
  | nil => intro st tr sk st2 _ _ _ it hit; simp at hit
  | cons hd rest ih =>
    intro st tr sk st2 hnd hmt h it hit
    rw [List.map_cons, List.nodup_cons] at hnd
    have hndh : hd.relParts ∉ rest.map SyncItem.relParts := hnd.1
    have hndr : (rest.map SyncItem.relParts).Nodup := hnd.2
    have hmtr : ∀ x ∈ rest, x.modTime ≤ now :=
      fun x hx => hmt x (List.mem_cons_of_mem hd hx)
    simp only [transferLoop] at h
    by_cases hnt : needsTransfer hd.size hd.modTime (st hd.relParts) = true
    · rw [if_pos hnt] at h
      by_cases hok : ok hd.relParts = true
      · rw [if_pos hok] at h
        cases h2 : transferLoop ok now
            (fun q => if q = hd.relParts then some (hd.size, now) else st q) rest with
        | error e => rw [h2] at h; simp at h
        | ok r =>
          obtain ⟨tr2, sk2, stx⟩ := r
          rw [h2] at h
          simp only [Except.ok.injEq, Prod.mk.injEq] at h
          rcases List.mem_cons.mp hit with rfl | hit2
          · have hpr := transferLoop_preserves ok now rest _ tr2 sk2 stx h2 it.relParts hndh
            rw [← h.2.2, hpr]
            have hle := hmt it (List.mem_cons_self it rest)
            simp [needsTransfer]
            omega
          · exact h.2.2 ▸ ih _ tr2 sk2 stx hndr hmtr h2 it hit2
      · rw [if_neg hok] at h; simp at h
    · rw [if_neg hnt] at h
      simp only [Bool.not_eq_true] at hnt
      cases h2 : transferLoop ok now st rest with
      | error e => rw [h2] at h; simp at h
      | ok r =>
        obtain ⟨tr2, sk2, stx⟩ := r
        rw [h2] at h
        simp only [Except.ok.injEq, Prod.mk.injEq] at h
        rcases List.mem_cons.mp hit with rfl | hit2
        · have hpr := transferLoop_preserves ok now rest st tr2 sk2 stx h2 it.relParts hndh
          rw [← h.2.2, hpr]
          exact hnt
        · exact h.2.2 ▸ ih st tr2 sk2 stx hndr hmtr h2 it hit2

/-- A transfer loop over a plan whose every item is already up to date
transfers nothing, skips every item, and leaves the state unchanged. -/
theorem transferLoop_noTransfers (ok : List String → Bool) (now : Int) :
    ∀ (items : List SyncItem) (st : DestStat),
      (∀ it ∈ items, needsTransfer it.size it.modTime (st it.relParts) = false) →
      transferLoop ok now st items = .ok (0, items.length, st) := by
  intro items
  induction items with
  | nil => intro st _; rfl
  | cons hd rest ih =>
    intro st h
    have h0 := h hd (List.mem_cons_self hd rest)
    have hrest : ∀ it ∈ rest, needsTransfer it.size it.modTime (st it.relParts) = false :=
      fun it hit => h it (List.mem_cons_of_mem hd hit)
    simp [transferLoop, h0, ih st hrest]

/-- Every completed transfer loop classifies each item exactly once:
transferred + skipped equals the plan length. -/
theorem transferLoop_counts (ok : List String → Bool) (now : Int) :
    ∀ (items : List SyncItem) (st : DestStat) (tr sk : Nat) (st2 : DestStat),
      transferLoop ok now st items = .ok (tr, sk, st2) → tr + sk = items.length := by
  intro items
  induction items with
  | nil =>
    intro st tr sk st2 h
    simp only [transferLoop, Except.ok.injEq, Prod.mk.injEq] at h
    simp [← h.1, ← h.2.1]
  | cons hd rest ih =>
    intro st tr sk st2 h
    simp only [transferLoop] at h
    by_cases hnt : needsTransfer hd.size hd.modTime (st hd.relParts) = true
    · rw [if_pos hnt] at h
      by_cases hok : ok hd.relParts = true
      · rw [if_pos hok] at h
        cases h2 : transferLoop ok now
            (fun q => if q = hd.relParts then some (hd.size, now) else st q) rest with
        | error e => rw [h2] at h; simp at h
        | ok r =>
          obtain ⟨tr2, sk2, stx⟩ := r
          rw [h2] at h
          simp only [Except.ok.injEq, Prod.mk.injEq] at h
          have := ih _ tr2 sk2 stx h2
          simp only [List.length_cons, ← h.1, ← h.2.1]
          omega
      · rw [if_neg hok] at h; simp at h
    · rw [if_neg hnt] at h
      cases h2 : transferLoop ok now st rest with
      | error e => rw [h2] at h; simp at h
      | ok r =>
        obtain ⟨tr2, sk2, stx⟩ := r
        rw [h2] at h
        simp only [Except.ok.injEq, Prod.mk.injEq] at h
        have := ih st tr2 sk2 stx h2
        simp only [List.length_cons, ← h.1, ← h.2.1]
        omega

/-! ## C6 -/

/-- C6: running push twice in succession over an unchanged local tree —
the second run starting from the remote state the first run produced —
yields a second report with transferred = 0 and skipped = checked.  The
plan hypotheses say the scan produced pairwise-distinct relative paths (as
a filesystem walk does) and that no planned file carries a modification
time later than the first run's transfer clock (a file cannot have been
modified in the future); without the latter the one-second tolerance of
the change check could not cover a freshly uploaded copy. -/
theorem push_idempotent (rules : List String) (u1 u2 : List String → Bool) (t1 t2 : Int)
    (root : FSTree) (remote : DestStat) (items : List SyncItem) (ign : Nat)
    (hs : pushScan rules root = .ok (items, ign))
    (hnd : (items.map SyncItem.relParts).Nodup)
    (hmt : ∀ it ∈ items, it.modTime ≤ t1)
    (h1 : exOk (SyncFiles rules u1 t1 root remote) = true) :
    ∃ r2 st2, SyncFilesTwice rules u1 u2 t1 t2 root remote = .ok (r2, st2) ∧
      r2.transferred = 0 ∧ r2.skipped = r2.checked := by
  cases h2 : transferLoop u1 t1 remote items with
  | error e =>
    exfalso
    have : SyncFiles rules u1 t1 root remote = .error e := by
      simp [SyncFiles, hs, h2]
    rw [this] at h1
    exact absurd h1 (by simp [exOk])
  | ok r1 =>
    obtain ⟨tr1, sk1, st1⟩ := r1
    have hupto := transferLoop_uptodate u1 t1 items remote tr1 sk1 st1 hnd hmt h2
    have hrun2 := transferLoop_noTransfers u2 t2 items st1 hupto
    refine ⟨⟨items.length, 0, items.length, ign⟩, st1, ?_, rfl, rfl⟩
    simp [SyncFilesTwice, SyncFiles, hs, h2, hrun2]

/-- Witness for C6 on a concrete one-file tree and empty remote. -/
theorem push_idempotent_witness :
    ∃ r2 st2, SyncFilesTwice [] (fun _ => true) (fun _ => true) 200 300 exSmallTree emptyStat =
        .ok (r2, st2) ∧ r2.transferred = 0 ∧ r2.skipped = r2.checked :=
  push_idempotent [] (fun _ => true) (fun _ => true) 200 300 exSmallTree emptyStat
    [⟨["a.txt"], 3, 100⟩] 0 rfl (by decide) (by decide) rfl

/-! ## C10 -/

/-- C10: any push or pull run that completes reports checked =
transferred + skipped — each planned item is classified exactly once,
either as transferred or as skipped up-to-date. -/
theorem report_balance (rules : List String) (u dl : List String → Bool) (nowP nowL : Int)
    (rootP rootL : FSTree) (remote localSt : DestStat) (r r' : SyncReport) :
    (SyncFilesReport rules u nowP rootP remote = .ok r →
      r.checked = r.transferred + r.skipped) ∧
    (PullFilesReport rules dl nowL rootL localSt = .ok r' →
      r'.checked = r'.transferred + r'.skipped) := by
  constructor
  · intro h
    unfold SyncFilesReport at h
    cases hs : pushScan rules rootP with
    | error e =>
      have he : SyncFiles rules u nowP rootP remote = .error e := by simp [SyncFiles, hs]
      rw [he] at h
      simp [Except.map] at h
    | ok pr =>
      obtain ⟨items, ign⟩ := pr
      cases h2 : transferLoop u nowP remote items with
      | error e =>
        have he : SyncFiles rules u nowP rootP remote = .error e := by
          simp [SyncFiles, hs, h2]
        rw [he] at h
        simp [Except.map] at h
      | ok r3 =>
        obtain ⟨tr, sk, st2⟩ := r3
        have hS : SyncFiles rules u nowP rootP remote =
            .ok (⟨items.length, tr, sk, ign⟩, st2) := by
          simp [SyncFiles, hs, h2]
        rw [hS] at h
        simp only [Except.map, Except.ok.injEq] at h
        have hc := transferLoop_counts u nowP items remote tr sk st2 h2
        rw [← h]
        exact hc.symm
  · intro h
    unfold PullFilesReport at h
    cases h2 : transferLoop dl nowL localSt (pullScan rules rootL).1 with
    | error e =>
      have he : PullFiles rules dl nowL rootL localSt = .error e := by
        simp [PullFiles, h2]
      rw [he] at h
      simp [Except.map] at h
    | ok r3 =>
      obtain ⟨tr, sk, st2⟩ := r3
      have hP : PullFiles rules dl nowL rootL localSt =
          .ok (⟨(pullScan rules rootL).1.length, tr, sk, (pullScan rules rootL).2⟩, st2) := by
        simp [PullFiles, h2]
      rw [hP] at h
      simp only [Except.map, Except.ok.injEq] at h
      have hc := transferLoop_counts dl nowL (pullScan rules rootL).1 localSt tr sk st2 h2
      rw [← h]
      exact hc.symm

/-- Witness for C10: concrete completed push and pull runs balance. -/
theorem report_balance_witness :
    (SyncReport.mk 1 1 0 0).checked =
      (SyncReport.mk 1 1 0 0).transferred + (SyncReport.mk 1 1 0 0).skipped ∧
    (SyncReport.mk 1 1 0 0).checked =
      (SyncReport.mk 1 1 0 0).transferred + (SyncReport.mk 1 1 0 0).skipped :=
  ⟨(report_balance [] (fun _ => true) (fun _ => true) 200 10 exSmallTree exSmallTree
      emptyStat emptyStat ⟨1, 1, 0, 0⟩ ⟨1, 1, 0, 0⟩).1 rfl,
   (report_balance [] (fun _ => true) (fun _ => true) 200 10 exSmallTree exSmallTree
      emptyStat emptyStat ⟨1, 1, 0, 0⟩ ⟨1, 1, 0, 0⟩).2 rfl⟩

end Pooshit
